import Mathlib

/-!
Shallow embedding of the record-linkage core of the nrb-block repository
(src/final.py and src/nrb_block.py) and verification of its specification.

Cells of a pandas DataFrame are modelled by `Val`: a string, a rational
number, the float NaN produced by file parsing, or the Python `None`
inserted by `Series.replace`.  A row is an ordered association list from
column label to value (pandas keeps labels ordered and allows duplicate
labels), and a DataFrame is a column-label list plus a list of rows.
-/

set_option maxRecDepth 4096

namespace NrbBlock

/-- A pandas cell value: a string, a number, the missing marker NaN
(as produced by reading a file), or the Python None marker
(as produced by `replace(..., None)` in `clean_column`). -/
inductive Val where
  | str : String → Val
  | num : ℚ → Val
  | na : Val
  | none : Val
deriving DecidableEq

/-- Python `str()` applied to a cell, as `Series.astype(str)` does cellwise:
a string is unchanged, NaN renders as "nan", None renders as "None". -/
def pyStr : Val → String
  | Val.str s => s
  | Val.num q => toString q
  | Val.na => "nan"
  | Val.none => "None"

/-- `pd.isna` on a cell: true exactly for the NaN and None markers. -/
def isna : Val → Bool
  | Val.na => true
  | Val.none => true
  | _ => false

/-- The whitespace characters stripped by Python `str.strip()` and split on
by `str.split()` (ASCII range; the inputs of this pipeline contain no
further Unicode space characters). -/
def pyIsSpace (c : Char) : Bool :=
  c = ' ' || c = '\t' || c = '\n' || c = '\r' || c = '\x0b' || c = '\x0c'

/-- Remove leading and trailing whitespace from a character list. -/
def stripChars (l : List Char) : List Char :=
  ((l.dropWhile pyIsSpace).reverse.dropWhile pyIsSpace).reverse

/-- Python `str.strip()`. -/
def pyStrip (s : String) : String := String.mk (stripChars s.data)

/-- The cellwise effect of `clean_column` (src/final.py lines 20-23 and the
body of src/nrb_block.py lines 22-27): `astype(str)` followed by
`.str.strip()`, then `replace(['nan', '', ' '], None)` maps the listed
values to the None marker.  The replacement runs after stripping, so it is
the stripped string that is compared against the list. -/
def cleanVal (v : Val) : Val :=
  if pyStrip (pyStr v) = "nan" ∨ pyStrip (pyStr v) = "" ∨ pyStrip (pyStr v) = " "
  then Val.none
  else Val.str (pyStrip (pyStr v))

/-- A row: ordered association list of column label and value. -/
abbrev Row := List (String × Val)

/-- Reading a cell of a row by column label (first occurrence, as a pandas
Series lookup on a unique label); a label absent from the row reads as NaN. -/
def rowGet (r : Row) (c : String) : Val :=
  ((r.find? (fun p => p.1 == c)).map Prod.snd).getD Val.na

/-- Overwrite the value of one labelled cell when its label is `c`. -/
def setCell (c : String) (v : Val) (p : String × Val) : String × Val :=
  if p.1 == c then (p.1, v) else p

/-- Writing a cell of a row by column label, as pandas column assignment:
every existing occurrence of the label is overwritten in place, and a fresh
label is appended at the end of the row. -/
def rowSet (r : Row) (c : String) (v : Val) : Row :=
  if r.any (fun p => p.1 == c) then r.map (setCell c v) else r ++ [(c, v)]

/-- Dropping a label from a row, as `Series.drop(labels=[c])`. -/
def rowDrop (r : Row) (c : String) : Row :=
  r.filter (fun p => !(p.1 == c))

/-- A DataFrame: its column labels and its rows. -/
structure DF where
  cols : List String
  rows : List Row
deriving DecidableEq

/-- `clean_column` of src/final.py (lines 20-23): both cellwise passes of
the source collapsed into `cleanVal`, applied to the designated column of
every row.  The source mutates the column of the frame it is handed and
returns that same frame. -/
def clean_column (df : DF) (column : String) : DF :=
  { df with rows := df.rows.map (fun r => rowSet r column (cleanVal (rowGet r column))) }

/-- The state of the caller's table after `clean_column` (src/final.py)
returns: the source assigns `df[column] = ...` on the frame passed in, which
writes through the caller's reference and returns the same object, so the
caller's table afterwards holds exactly the cleaned table. -/
def clean_column_caller_view (df : DF) (column : String) : DF :=
  clean_column df column

/-- `clean_column` of src/nrb_block.py (lines 22-27): identical body, but
guarded by `if column in df.columns`, silently returning the table unchanged
when the column is absent. -/
def clean_column_nrb (df : DF) (column : String) : DF :=
  if column ∈ df.cols then clean_column df column else df

/-- `df.dropna(subset=[c])`: keep the rows whose cell at `c` is not missing. -/
def dropna (df : DF) (c : String) : DF :=
  { df with rows := df.rows.filter (fun r => !(isna (rowGet r c))) }

/-- The matches of one left row against a list of right rows in
`pd.merge(..., how='inner')`: every right row whose key cell equals the left
key cell, paired with the left row. -/
def pairsFor (s : Row) (ts : List Row) (c1 c2 : String) : List (Row × Row) :=
  (ts.filter (fun t => decide (rowGet t c2 = rowGet s c1))).map (fun t => (s, t))

/-- All pairs produced by an inner equi-join of two row lists on the columns
`c1` (left) and `c2` (right), in pandas merge order: left row order, then
right row order within a key. -/
def mergeRowsPairs : List Row → List Row → String → String → List (Row × Row)
  | [], _, _, _ => []
  | s :: ss, ts, c1, c2 => pairsFor s ts c1 c2 ++ mergeRowsPairs ss ts c1 c2

/-- The exact citizenship match of src/final.py `main` (lines 124-134),
reduced to the set of matched (SOURCE, TARGET) row pairs: SOURCE rows with a
missing key are dropped by `dropna(subset=[...])`, then an inner merge pairs
each remaining SOURCE row with every TARGET row holding an equal key cell.
The column suffixing of the merged frame is not needed for pair membership
and is elided. -/
def exact_match (src tgt : DF) (c1 c2 : String) : List (Row × Row) :=
  mergeRowsPairs (dropna src c1).rows tgt.rows c1 c2

/-- A cell is in cleaned form when it is a possible output of `cleanVal`,
which is what the exact matcher assumes of both key columns. -/
def KeyClean (v : Val) : Prop := ∃ w, v = cleanVal w

/-- `merge_csvs_by_columns` of src/nrb_block.py (lines 36-60), reduced to
the matched row pairs: it raises ValueError when a required column is
absent, otherwise cleans both key columns, drops SOURCE rows with an empty
key, and inner-merges.  The Except channel models the raised exception. -/
def merge_csvs_by_columns (df1 df2 : DF) : Except String (List (Row × Row)) :=
  if "citizenship_number" ∈ df1.cols then
    if "CUS_LEG_ID" ∈ df2.cols then
      let d1 := clean_column_nrb df1 "citizenship_number"
      let d2 := clean_column_nrb df2 "CUS_LEG_ID"
      Except.ok (exact_match d1 d2 "citizenship_number" "CUS_LEG_ID")
    else Except.error "ValueError: Column CUS_LEG_ID is missing in ADBL CSV."
  else Except.error "ValueError: Column citizenship_number is missing in NRB Excel."

/-- Does the pattern list occur at the head of the list? -/
def startsWithChars : List Char → List Char → Bool
  | [], _ => true
  | _ :: _, [] => false
  | p :: ps, c :: cs => p = c && startsWithChars ps cs

/-- One fuel-bounded pass of Python `str.replace`: scan left to right, on a
pattern occurrence emit the replacement and skip the pattern,
non-overlapping.  The fuel is the length of the scanned list, consumed one
unit per step; a pattern occurrence consumes at least one character, so the
list shrinks at least as fast as the fuel. -/
def replaceGo (pat rep : List Char) : Nat → List Char → List Char
  | _, [] => []
  | 0, l => l
  | fuel + 1, c :: cs =>
    if startsWithChars pat (c :: cs) then
      rep ++ replaceGo pat rep fuel (List.drop pat.length (c :: cs))
    else
      c :: replaceGo pat rep fuel cs

/-- Python `str.replace(pat, rep)` for a non-empty pattern (every pattern in
the source is non-empty; an empty pattern is returned unchanged here). -/
def pyReplace (s pat rep : String) : String :=
  if pat.data = [] then s else String.mk (replaceGo pat.data rep.data s.data.length s.data)

/-- `fix_devanagari_abbreviations` of src/final.py (lines 38-45): a fixed,
ordered chain of literal substring replacements on a string.  The source
guard for non-string input is handled at the call site (`romanize_name`
dispatches on the cell shape before reaching this). -/
def fix_devanagari_abbreviations (s : String) : String :=
  pyReplace (pyReplace (pyReplace s "के.सि" "केसी") "कु." "कुमार") "श." "शर्मा"

/-- `romanize_name` of src/final.py (lines 47-54), parameterised by the
external transliteration function, whose failure (a raised exception,
swallowed by the bare `except`) is modelled as `Option.none`.  A missing
cell gives the empty string; on transliteration failure the source returns
`str(name)` where `name` has already been reassigned to the
abbreviation-fixed text; a non-string cell passes through
`fix_devanagari_abbreviations` unchanged, makes `transliterate` raise, and
falls back to its `str()` form. -/
def romanize_name (translit : String → Option String) (v : Val) : String :=
  if isna v then ""
  else
    match v with
    | Val.str s =>
      let fixedText := fix_devanagari_abbreviations s
      match translit fixedText with
      | some r => r
      | Option.none => fixedText
    | w => pyStr w

/-- Python `\w` against the characters this pipeline sees: ASCII
alphanumerics and underscore, plus all non-ASCII characters (the Devanagari
and romanized-name alphabets contain no non-ASCII punctuation). -/
def pyIsWordChar (c : Char) : Bool :=
  c.isAlphanum || c = '_' || decide (127 < c.toNat)

/-- Lowercase an ASCII letter, leave every other character unchanged. -/
def asciiLower (c : Char) : Char :=
  if 'A' ≤ c && c ≤ 'Z' then Char.ofNat (c.toNat + 32) else c

/-- `clean_name` of src/final.py (lines 31-36): empty string for a
non-string cell, otherwise strip, lowercase (ASCII, which is all the
romanized text holds), and delete every character that is neither a word
character nor whitespace. -/
def clean_name (v : Val) : String :=
  match v with
  | Val.str s =>
    let t := (pyStrip s).data.map asciiLower
    String.mk (t.filter (fun c => pyIsWordChar c || pyIsSpace c))
  | _ => ""

/-- Lexicographic order on character lists by code point, as Python string
comparison used by `sorted`. -/
def charListLe : List Char → List Char → Bool
  | [], _ => true
  | _ :: _, [] => false
  | a :: as, b :: bs =>
    if a.toNat < b.toNat then true
    else if b.toNat < a.toNat then false
    else charListLe as bs

/-- Insert a string into an ascending list, keeping it ascending. -/
def insertTok (x : String) : List String → List String
  | [] => [x]
  | y :: ys => if charListLe x.data y.data then x :: y :: ys else y :: insertTok x ys

/-- Ascending (stable) sort of a token list, as Python `sorted`. -/
def sortToks : List String → List String
  | [] => []
  | x :: xs => insertTok x (sortToks xs)

/-- Python `str.split()`: split on whitespace runs, discarding empties.
The accumulator holds the current token reversed. -/
def splitWsAux : List Char → List Char → List String
  | [], cur => if cur.isEmpty then [] else [String.mk cur.reverse]
  | c :: cs, cur =>
    if pyIsSpace c then
      if cur.isEmpty then splitWsAux cs [] else String.mk cur.reverse :: splitWsAux cs []
    else splitWsAux cs (c :: cur)

/-- Whitespace tokenisation of a string. -/
def pySplit (s : String) : List String := splitWsAux s.data []

/-- Join tokens with single spaces. -/
def joinSpace : List String → String
  | [] => ""
  | [t] => t
  | t :: ts => t ++ " " ++ joinSpace ts

/-- One row of the dynamic program for the length of a longest common
subsequence: `prev` walks the previous row, `diag` and `left` are its
south-west and west neighbours. -/
def lcsRowGo (a : Char) : List Char → List Nat → Nat → Nat → List Nat
  | [], _, _, _ => []
  | b :: bs, prev, diag, left =>
    let up := prev.headD 0
    let cur := if a = b then diag + 1 else max up left
    cur :: lcsRowGo a bs (prev.drop 1) up cur

/-- Length of a longest common subsequence of two character lists, by the
standard row-by-row dynamic program. -/
def lcs (as bs : List Char) : Nat :=
  (as.foldl
    (fun prev a => 0 :: lcsRowGo a bs (prev.drop 1) (prev.headD 0) 0)
    (List.replicate (bs.length + 1) 0)).getLastD 0

/-- The rapidfuzz normalized InDel similarity of two strings, scaled to
0..100 and kept exact as a rational: the InDel distance is
`la + lb - 2 * lcs`, and the similarity of two empty strings is 100. -/
def indelSim (a b : String) : ℚ :=
  let la := a.data.length
  let lb := b.data.length
  if la + lb = 0 then 100
  else mkRat (2 * lcs a.data b.data * 100) (la + lb)

/-- Sort the whitespace tokens of a string and rejoin them with single
spaces, the preprocessing of `fuzz.token_sort_ratio`. -/
def tokenSortStr (s : String) : String := joinSpace (sortToks (pySplit s))

/-- `fuzz.token_sort_ratio`: the InDel similarity of the token-sorted forms
of the two strings. -/
def token_sort_ratio (a b : String) : ℚ :=
  indelSim (tokenSortStr a) (tokenSortStr b)

/-- `process.extractOne(query, choices, scorer=fuzz.token_sort_ratio)`:
None for an empty choice sequence, otherwise the choice with the maximal
score; the running best is replaced only by a strictly greater score, so
among ties the first choice wins.  The unused index component of the
returned triple is dropped. -/
def extractOne (query : String) : List String → Option (String × ℚ)
  | [] => Option.none
  | c :: cs =>
    some (cs.foldl
      (fun best ch =>
        let sc := token_sort_ratio query ch
        if best.2 < sc then (ch, sc) else best)
      (c, token_sort_ratio query c))

/-- The derived canonical-name column added by `match_by_name` to the
SOURCE frame (src/final.py line 57): romanize then clean each name cell. -/
def addRomanizedNrb (translit : String → Option String) (df : DF) (col : String) : DF :=
  { cols := if "romanized_name" ∈ df.cols then df.cols else df.cols ++ ["romanized_name"],
    rows := df.rows.map (fun r =>
      rowSet r "romanized_name"
        (Val.str (clean_name (Val.str (romanize_name translit (rowGet r col)))))) }

/-- The canonical-name column added to the TARGET frame (src/final.py line
58): `astype(str)` then clean each name cell. -/
def addRomanizedAdbl (df : DF) (col : String) : DF :=
  { cols := if "romanized_name" ∈ df.cols then df.cols else df.cols ++ ["romanized_name"],
    rows := df.rows.map (fun r =>
      rowSet r "romanized_name" (Val.str (clean_name (Val.str (pyStr (rowGet r col)))))) }

/-- The body of the per-SOURCE-row loop of `match_by_name` (src/final.py
lines 61-73), over TARGET rows that already carry their canonical-name
column.  `ok none` is a skipped row; `error` models a raised exception:
`extractOne` returns Python None on an empty choice sequence and the tuple
unpacking then raises TypeError.  On acceptance the emitted row is the
SOURCE row followed by the TARGET row without its canonical-name column
(`pd.concat` with `keys=['nrb','adbl']` followed by
`reset_index(level=0, drop=True)` keeps the original labels), with the
score appended under the label match_score. -/
def fuzzyStep (adbl : List Row) (θ : ℚ) (row : Row) : Except String (Option Row) :=
  let name := pyStr (rowGet row "romanized_name")
  if name = "" then Except.ok Option.none
  else
    match extractOne name (adbl.map (fun t => pyStr (rowGet t "romanized_name"))) with
    | Option.none => Except.error "TypeError: cannot unpack non-iterable NoneType object"
    | some (m, score) =>
      if θ ≤ score then
        match adbl.find? (fun t => pyStr (rowGet t "romanized_name") == m) with
        | some t =>
          Except.ok (some (rowSet (row ++ rowDrop t "romanized_name") "match_score" (Val.num score)))
        | Option.none => Except.error "IndexError: single positional indexer is out-of-bounds"
      else Except.ok Option.none

/-- Run the loop over all SOURCE rows, keeping the emitted rows in order;
the first raised exception aborts the run. -/
def runFuzzyRows (adbl : List Row) (θ : ℚ) : List Row → Except String (List Row)
  | [] => Except.ok []
  | r :: rs =>
    match fuzzyStep adbl θ r with
    | Except.error e => Except.error e
    | Except.ok o =>
      match runFuzzyRows adbl θ rs with
      | Except.error e => Except.error e
      | Except.ok rest =>
        Except.ok (match o with | some m => m :: rest | Option.none => rest)

/-- The column renaming loop of `match_by_name` (src/final.py lines 78-88):
labels starting with nrb_ or adbl_ are rewritten by replacing that very
text with itself, every other label is kept, so the map fixes every label. -/
def renameCol (c : String) : String :=
  if startsWithChars "nrb_".data c.data then pyReplace c "nrb_" "nrb_"
  else if startsWithChars "adbl_".data c.data then pyReplace c "adbl_" "adbl_"
  else c

/-- Do the labels of a row contain a duplicate? -/
def hasDupLabels : List String → Bool
  | [] => false
  | c :: cs => cs.contains c || hasDupLabels cs

/-- `match_by_name` of src/final.py (lines 56-89): add the canonical-name
columns, run the loop, and build the result frame.  `pd.DataFrame` of an
empty match list is an empty frame.  `pd.DataFrame(matches)` (line 76)
reindexes each merged Series to the column index, and pandas raises
InvalidIndexError when that index is not uniquely valued — which happens
exactly when the merged rows carry a duplicate label (the rows of one run
all share the same label list, so the first row is checked); the raised
exception is modelled by the error result.  Otherwise the frame's columns
are the labels of the matched rows, passed through the (identity) renaming
loop of lines 78-88. -/
def match_by_name (translit : String → Option String) (df_nrb df_adbl : DF)
    (nrbNameCol adblNameCol : String) (θ : ℚ) : Except String DF :=
  let nrb := addRomanizedNrb translit df_nrb nrbNameCol
  let adbl := addRomanizedAdbl df_adbl adblNameCol
  match runFuzzyRows adbl.rows θ nrb.rows with
  | Except.error e => Except.error e
  | Except.ok ms =>
    match ms with
    | [] => Except.ok { cols := [], rows := [] }
    | m :: _ =>
      if hasDupLabels (m.map Prod.fst) then
        Except.error "InvalidIndexError: Reindexing only valid with uniquely valued Index objects"
      else Except.ok { cols := (m.map Prod.fst).map renameCol, rows := ms }

/-- The fuzzy branch of `main` (src/final.py lines 138-140): call
`match_by_name` with the default threshold 85 on defensive copies, and when
the result is non-empty add the column `match_type = 'Name Match'`. -/
def mainFuzzy (translit : String → Option String) (df_nrb df_adbl : DF)
    (nrbNameCol adblNameCol : String) : Except String DF :=
  match match_by_name translit df_nrb df_adbl nrbNameCol adblNameCol 85 with
  | Except.error e => Except.error e
  | Except.ok df =>
    if df.rows.isEmpty then Except.ok df
    else
      Except.ok { cols := df.cols ++ ["match_type"],
                  rows := df.rows.map (fun r => rowSet r "match_type" (Val.str "Name Match")) }

deriving instance DecidableEq for Except

/-! ### Helper lemmas on lists and stripping -/

theorem dropWhile_head_false {α : Type} (p : α → Bool) (l : List α) :
    ∀ a, (l.dropWhile p).head? = some a → p a = false := by
  induction l with
  | nil => intro a h; simp [List.dropWhile] at h
  | cons x xs ih =>
    intro a h
    by_cases hx : p x
    · rw [List.dropWhile_cons, if_pos hx] at h
      exact ih a h
    · rw [List.dropWhile_cons, if_neg hx] at h
      cases h
      exact Bool.eq_false_iff.mpr hx

theorem dropWhile_eq_self_of_head {α : Type} (p : α → Bool) (l : List α)
    (h : ∀ a, l.head? = some a → p a = false) : l.dropWhile p = l := by
  cases l with
  | nil => rfl
  | cons x xs => rw [List.dropWhile_cons, if_neg (by simp [h x rfl])]

theorem dropWhile_dropWhile {α : Type} (p : α → Bool) (l : List α) :
    (l.dropWhile p).dropWhile p = l.dropWhile p :=
  dropWhile_eq_self_of_head p _ (dropWhile_head_false p l)

theorem head?_append_of_ne_nil {α : Type} (l l' : List α) (h : l ≠ []) :
    (l ++ l').head? = l.head? := by
  cases l with
  | nil => exact absurd rfl h
  | cons x xs => rfl

theorem stripChars_idem (l : List Char) : stripChars (stripChars l) = stripChars l := by
  unfold stripChars
  have hu : ∀ a, (l.dropWhile pyIsSpace).head? = some a → pyIsSpace a = false :=
    dropWhile_head_false pyIsSpace l
  have hdecomp :
      l.dropWhile pyIsSpace =
        ((l.dropWhile pyIsSpace).reverse.dropWhile pyIsSpace).reverse
          ++ ((l.dropWhile pyIsSpace).reverse.takeWhile pyIsSpace).reverse := by
    conv_lhs => rw [← (l.dropWhile pyIsSpace).reverse_reverse,
      ← List.takeWhile_append_dropWhile (p := pyIsSpace) (l := (l.dropWhile pyIsSpace).reverse)]
    rw [List.reverse_append]
  have hfront :
      ((l.dropWhile pyIsSpace).reverse.dropWhile pyIsSpace).reverse.dropWhile pyIsSpace =
        ((l.dropWhile pyIsSpace).reverse.dropWhile pyIsSpace).reverse := by
    apply dropWhile_eq_self_of_head
    intro a ha
    have hne : ((l.dropWhile pyIsSpace).reverse.dropWhile pyIsSpace).reverse ≠ [] := by
      intro hnil
      rw [hnil] at ha
      cases ha
    apply hu
    rw [hdecomp, head?_append_of_ne_nil _ _ hne]
    exact ha
  rw [hfront, List.reverse_reverse, dropWhile_dropWhile]

theorem pyStrip_idem (s : String) : pyStrip (pyStrip s) = pyStrip s := by
  simp only [pyStrip]
  exact congrArg String.mk (stripChars_idem s.data)

/-! ### Helper lemmas on cleaning -/

theorem cleanVal_idem (v : Val) (h : cleanVal v ≠ Val.none) :
    cleanVal (cleanVal v) = cleanVal v := by
  by_cases hg : pyStrip (pyStr v) = "nan" ∨ pyStrip (pyStr v) = "" ∨ pyStrip (pyStr v) = " "
  · exact absurd (by simp [cleanVal, hg]) h
  · push_neg at hg
    obtain ⟨g1, g2, g3⟩ := hg
    have h1 : cleanVal v = Val.str (pyStrip (pyStr v)) := by
      simp [cleanVal, g1, g2, g3]
    have hps : pyStr (Val.str (pyStrip (pyStr v))) = pyStrip (pyStr v) := rfl
    rw [h1]
    simp [cleanVal, hps, pyStrip_idem, g1, g2, g3]

/-! ### Helper lemmas on rows -/

theorem setCell_fst (c : String) (v : Val) (p : String × Val) :
    (setCell c v p).1 = p.1 := by
  unfold setCell
  by_cases h : p.1 == c <;> simp [h]

theorem any_map_setCell (r : Row) (c : String) (v : Val) :
    (r.map (setCell c v)).any (fun p => p.1 == c) = r.any (fun p => p.1 == c) := by
  induction r with
  | nil => rfl
  | cons q qs ih =>
    by_cases hq : q.1 == c <;> simp [setCell, List.any_cons, hq, ih]

theorem map_setCell_of_no_key (r : Row) (c : String) (v : Val)
    (h : r.any (fun p => p.1 == c) = false) : r.map (setCell c v) = r := by
  induction r with
  | nil => rfl
  | cons q qs ih =>
    simp only [List.any_cons, Bool.or_eq_false_iff] at h
    simp [setCell, h.1, ih h.2]

theorem map_setCell_setCell (r : Row) (c : String) (v : Val) :
    (r.map (setCell c v)).map (setCell c v) = r.map (setCell c v) := by
  induction r with
  | nil => rfl
  | cons q qs ih =>
    by_cases hq : q.1 == c <;> simp [setCell, hq, ih]

theorem rowSet_idem (r : Row) (c : String) (v : Val) :
    rowSet (rowSet r c v) c v = rowSet r c v := by
  unfold rowSet
  by_cases h : r.any (fun p => p.1 == c)
  · rw [if_pos h, if_pos (by rw [any_map_setCell]; exact h), map_setCell_setCell]
  · have h' : r.any (fun p => p.1 == c) = false := Bool.eq_false_iff.mpr h
    rw [if_neg h, if_pos ?side]
    case side =>
      rw [List.any_append]
      simp [List.any_cons]
    rw [List.map_append, map_setCell_of_no_key r c v h']
    simp [setCell]

theorem find?_map_setCell_self (r : Row) (c : String) (v : Val)
    (h : r.any (fun p => p.1 == c) = true) :
    ((r.map (setCell c v)).find? (fun p => p.1 == c)).map Prod.snd = some v := by
  induction r with
  | nil => simp at h
  | cons q qs ih =>
    by_cases hq : q.1 == c
    · simp [setCell, List.find?_cons, hq]
    · have h' : qs.any (fun p => p.1 == c) = true := by
        simpa [List.any_cons, hq] using h
      simp only [List.map_cons, setCell, hq, if_neg]
      rw [List.find?_cons_of_neg _ (by simp [hq])]
      exact ih h'

theorem find?_append_key (r : Row) (c : String) (v : Val)
    (h : r.any (fun p => p.1 == c) = false) :
    ((r ++ [(c, v)]).find? (fun p => p.1 == c)).map Prod.snd = some v := by
  induction r with
  | nil => simp [List.find?_cons]
  | cons q qs ih =>
    simp only [List.any_cons, Bool.or_eq_false_iff] at h
    rw [List.cons_append, List.find?_cons_of_neg _ (by simp [h.1])]
    exact ih h.2

theorem rowGet_rowSet (r : Row) (c : String) (v : Val) :
    rowGet (rowSet r c v) c = v := by
  unfold rowGet rowSet
  by_cases h : r.any (fun p => p.1 == c)
  · rw [if_pos h, find?_map_setCell_self r c v h]
    rfl
  · rw [if_neg h, find?_append_key r c v (Bool.eq_false_iff.mpr h)]
    rfl

theorem find?_map_setCell_ne (r : Row) (c c' : String) (v : Val) (h : c' ≠ c) :
    (r.map (setCell c v)).find? (fun p => p.1 == c')
      = r.find? (fun p => p.1 == c') := by
  induction r with
  | nil => rfl
  | cons q qs ih =>
    by_cases hq : q.1 == c'
    · have hqc : (q.1 == c) = false := by
        have : q.1 = c' := by simpa using hq
        simp [this, h]
      have hset : setCell c v q = q := by simp [setCell, hqc]
      simp only [List.map_cons, hset]
      rw [List.find?_cons_of_pos _ (by simpa using hq),
        List.find?_cons_of_pos _ (by simpa using hq)]
    · have hfst : ((setCell c v q).1 == c') = false := by
        rw [setCell_fst]
        exact Bool.eq_false_iff.mpr hq
      simp only [List.map_cons]
      rw [List.find?_cons_of_neg _ (by simp [hfst]),
        List.find?_cons_of_neg _ (by simp [hq]), ih]

theorem find?_append_ne (r : Row) (c c' : String) (v : Val) (h : c' ≠ c) :
    (r ++ [(c, v)]).find? (fun p => p.1 == c')
      = r.find? (fun p => p.1 == c') := by
  induction r with
  | nil =>
    simp only [List.nil_append]
    rw [List.find?_cons_of_neg _ (by simp [Ne.symm h])]
  | cons q qs ih =>
    by_cases hq : q.1 == c'
    · rw [List.cons_append, List.find?_cons_of_pos _ (by simpa using hq),
        List.find?_cons_of_pos _ (by simpa using hq)]
    · rw [List.cons_append, List.find?_cons_of_neg _ (by simp [hq]),
        List.find?_cons_of_neg _ (by simp [hq]), ih]

theorem rowGet_rowSet_ne (r : Row) (c c' : String) (v : Val) (h : c' ≠ c) :
    rowGet (rowSet r c v) c' = rowGet r c' := by
  unfold rowGet rowSet
  by_cases ha : r.any (fun p => p.1 == c)
  · rw [if_pos ha, find?_map_setCell_ne r c c' v h]
  · rw [if_neg ha, find?_append_ne r c c' v h]

/-! ### Helper lemmas on the inner join -/

theorem mem_mergeRowsPairs (ss ts : List Row) (c1 c2 : String) (a b : Row) :
    (a, b) ∈ mergeRowsPairs ss ts c1 c2
      ↔ a ∈ ss ∧ b ∈ ts ∧ rowGet b c2 = rowGet a c1 := by
  induction ss with
  | nil => simp [mergeRowsPairs]
  | cons s ss ih =>
    simp only [mergeRowsPairs, List.mem_append, ih, List.mem_cons]
    constructor
    · rintro (hp | ⟨ha, hb, hr⟩)
      · simp only [pairsFor, List.mem_map, List.mem_filter] at hp
        obtain ⟨t, ⟨ht, hq⟩, heq⟩ := hp
        obtain ⟨rfl, rfl⟩ := Prod.mk.injEq .. ▸ heq
        exact ⟨Or.inl rfl, ht, of_decide_eq_true hq⟩
      · exact ⟨Or.inr ha, hb, hr⟩
    · rintro ⟨ha | ha, hb, hr⟩
      · subst ha
        left
        simp only [pairsFor, List.mem_map, List.mem_filter]
        exact ⟨b, ⟨hb, decide_eq_true hr⟩, rfl⟩
      · exact Or.inr ⟨ha, hb, hr⟩

/-! ### Helper lemmas on extractOne -/

theorem foldl_best_fst (q : String) (cs : List String) :
    ∀ b : String × ℚ,
      (cs.foldl
          (fun best ch =>
            let sc := token_sort_ratio q ch
            if best.2 < sc then (ch, sc) else best) b).1 = b.1
        ∨ (cs.foldl
            (fun best ch =>
              let sc := token_sort_ratio q ch
              if best.2 < sc then (ch, sc) else best) b).1 ∈ cs := by
  induction cs with
  | nil => intro b; left; rfl
  | cons x xs ih =>
    intro b
    simp only [List.foldl_cons]
    rcases ih (if b.2 < token_sort_ratio q x then (x, token_sort_ratio q x) else b) with h | h
    · by_cases hx : b.2 < token_sort_ratio q x
      · right
        rw [h, if_pos hx]
        exact List.mem_cons_self x xs
      · left
        rw [h, if_neg hx]
    · right
      exact List.mem_cons_of_mem x h

theorem extractOne_mem (q : String) (l : List String) (m : String) (sc : ℚ)
    (h : extractOne q l = some (m, sc)) : m ∈ l := by
  cases l with
  | nil => cases h
  | cons c cs =>
    have h' :
        (cs.foldl
          (fun best ch =>
            let sc := token_sort_ratio q ch
            if best.2 < sc then (ch, sc) else best) (c, token_sort_ratio q c)) = (m, sc) := by
      simpa [extractOne] using h
    rcases foldl_best_fst q cs (c, token_sort_ratio q c) with hf | hf
    · rw [h'] at hf
      have hm : m = c := by simpa using hf
      rw [hm]
      exact List.mem_cons_self c cs
    · rw [h'] at hf
      exact List.mem_cons_of_mem c hf

theorem find?_isSome_of_mem_map (f : Row → String) (l : List Row) (m : String)
    (h : m ∈ l.map f) : ∃ t, l.find? (fun u => f u == m) = some t := by
  induction l with
  | nil => simp at h
  | cons x xs ih =>
    by_cases hx : f x == m
    · exact ⟨x, List.find?_cons_of_pos _ hx⟩
    · simp only [List.map_cons, List.mem_cons] at h
      rcases h with h | h
      · exact absurd (by simp [h]) hx
      · obtain ⟨t, ht⟩ := ih h
        refine ⟨t, ?_⟩
        have hstep : (x :: xs).find? (fun u => f u == m) = xs.find? (fun u => f u == m) :=
          List.find?_cons_of_neg _ hx
        rw [hstep, ht]

/-! ### Claim theorems: closed evaluations -/

/-- C3.  The spec states that an empty TARGET table makes the fuzzy matcher
return an empty result table without error.  The code instead raises: with
at least one SOURCE row of non-empty canonical name and no TARGET rows,
`process.extractOne` returns Python None and the tuple unpacking
`match, score, _ = ...` raises TypeError, modelled by the error result of
`match_by_name`. -/
theorem match_by_name_empty_target_raises :
    match_by_name (fun s => some s)
      { cols := ["name"], rows := [[("name", Val.str "ram")]] }
      { cols := ["name"], rows := [] } "name" "name" 85
      = Except.error "TypeError: cannot unpack non-iterable NoneType object" := by
  decide

/-- C4.  Evaluating the fuzzy pipeline of `main` at a SOURCE row with
column nm and a TARGET row with the disjoint column cust_name: the emitted
row keeps the original labels — no label carries an nrb or adbl origin
prefix — because `pd.concat` with `keys=['nrb','adbl']` is immediately
stripped by `reset_index(level=0, drop=True)` and the renaming loop
replaces nrb_ and adbl_ by themselves.  The TARGET canonical-name column is
dropped, match_score holds the score and match_type is Name Match, but no
column is origin-prefixed, contradicting the claim.  And when SOURCE and
TARGET do share a column name, the unprefixed labels collide and
`pd.DataFrame(matches)` raises InvalidIndexError instead of producing any
result table (second conjunct), so the promised prefixed concatenation is
produced in neither case. -/
theorem mainFuzzy_columns_not_prefixed :
    mainFuzzy (fun s => some s)
      { cols := ["nm"], rows := [[("nm", Val.str "ram kumar")]] }
      { cols := ["cust_name"], rows := [[("cust_name", Val.str "ram kumar")]] }
      "nm" "cust_name"
      = Except.ok
          { cols := ["nm", "romanized_name", "cust_name", "match_score", "match_type"],
            rows := [[("nm", Val.str "ram kumar"),
                      ("romanized_name", Val.str "ram kumar"),
                      ("cust_name", Val.str "ram kumar"),
                      ("match_score", Val.num 100),
                      ("match_type", Val.str "Name Match")]] }
    ∧ match_by_name (fun s => some s)
        { cols := ["name"], rows := [[("name", Val.str "ram kumar")]] }
        { cols := ["name"], rows := [[("name", Val.str "ram kumar")]] }
        "name" "name" 85
      = Except.error "InvalidIndexError: Reindexing only valid with uniquely valued Index objects" := by
  decide

/-- C5, counterexample.  The Field Cleaner is not idempotent: a cell that
cleans to the missing marker is rendered as the string None by the
`astype(str)` of a second pass, which survives stripping and replacement. -/
theorem clean_column_not_idempotent :
    clean_column (clean_column { cols := ["k"], rows := [[("k", Val.str "")]] } "k") "k"
      ≠ clean_column { cols := ["k"], rows := [[("k", Val.str "")]] } "k" := by
  decide

/-- C6, counterexample.  The value " nan " lies outside the set
{"", " ", "nan"}, so the claim demands that it be stripped to "nan" with
content preserved; the code strips first and then replaces, mapping it to
the missing marker instead. -/
theorem cleanVal_strips_before_replacing :
    cleanVal (Val.str " nan ") = Val.none
      ∧ (" nan " : String) ∉ (["", " ", "nan"] : List String)
      ∧ Val.none ≠ Val.str "nan" := by
  decide

/-- C7, counterexample.  When transliteration fails, `romanize_name`
returns `str(name)` after `name` has been rebound to the
abbreviation-fixed text, not the raw text: with a transliteration that
always fails, the raw input string of two code points makes the function
return the expanded surname, which differs from the raw text. -/
theorem romanize_name_fallback_not_raw :
    romanize_name (fun _ => Option.none) (Val.str "कु.") = "कुमार"
      ∧ ("कुमार" : String) ≠ "कु." := by
  decide

/-- C8, counterexample.  `clean_column` of src/nrb_block.py, asked to clean
a column absent from the table, silently returns the table unchanged
instead of reporting a configuration error: the guard
`if column in df.columns` skips the whole body. -/
theorem clean_column_nrb_silently_skips :
    clean_column_nrb { cols := ["a"], rows := [[("a", Val.str " x ")]] } "b"
        = { cols := ["a"], rows := [[("a", Val.str " x ")]] }
      ∧ ("b" : String) ∉ (["a"] : List String) := by
  decide

/-- C9, counterexample.  The matching core does not leave the caller's
input table unchanged: `clean_column` assigns the cleaned column into the
frame it was passed, so after the call the caller's table holds the
cleaned cell x in place of the original cell with surrounding blanks. -/
theorem clean_column_mutates_caller :
    clean_column_caller_view { cols := ["k"], rows := [[("k", Val.str " x ")]] } "k"
      ≠ { cols := ["k"], rows := [[("k", Val.str " x ")]] } := by
  decide

/-! ### Claim theorems: general statements -/

/-- C1.  For tables whose key columns are already cleaned (every key cell a
possible output of `cleanVal`), a SOURCE row and a TARGET row form a pair of
the exact-match result exactly when their key cells hold one and the same
string: the `dropna` step removes every SOURCE row with a missing key, and
the inner merge pairs rows with equal key cells, so a pair appears iff the
two cleaned keys are equal as strings and both non-missing. -/
theorem exact_match_iff (src tgt : DF) (c1 c2 : String) (s t : Row)
    (hs : s ∈ src.rows) (ht : t ∈ tgt.rows)
    (hcs : ∀ r ∈ src.rows, KeyClean (rowGet r c1))
    (_hct : ∀ r ∈ tgt.rows, KeyClean (rowGet r c2)) :
    (s, t) ∈ exact_match src tgt c1 c2
      ↔ ∃ k, rowGet s c1 = Val.str k ∧ rowGet t c2 = Val.str k := by
  have hkc : ∀ v : Val, KeyClean v → v = Val.none ∨ ∃ k, v = Val.str k := by
    rintro v ⟨w, rfl⟩
    by_cases hg : pyStrip (pyStr w) = "nan" ∨ pyStrip (pyStr w) = "" ∨ pyStrip (pyStr w) = " "
    · left
      simp [cleanVal, hg]
    · right
      exact ⟨pyStrip (pyStr w), by simp [cleanVal, hg]⟩
  unfold exact_match dropna
  rw [mem_mergeRowsPairs]
  simp only [List.mem_filter]
  constructor
  · rintro ⟨⟨hs', hna⟩, ht', heq⟩
    rcases hkc _ (hcs s hs) with hnone | ⟨k, hk⟩
    · rw [hnone] at hna
      simp [isna] at hna
    · exact ⟨k, hk, by rw [heq, hk]⟩
  · rintro ⟨k, hks, hkt⟩
    exact ⟨⟨hs, by rw [hks]; rfl⟩, ht, by rw [hks, hkt]⟩

/-- C1 witness: a SOURCE row and a TARGET row carrying the same cleaned key
string 123456 form a pair of the exact-match result. -/
theorem exact_match_iff_witness :
    ([("cit", Val.str "123456")], [("cid", Val.str "123456")])
      ∈ exact_match { cols := ["cit"], rows := [[("cit", Val.str "123456")]] }
          { cols := ["cid"], rows := [[("cid", Val.str "123456")]] } "cit" "cid" :=
  (exact_match_iff
      { cols := ["cit"], rows := [[("cit", Val.str "123456")]] }
      { cols := ["cid"], rows := [[("cid", Val.str "123456")]] }
      "cit" "cid" [("cit", Val.str "123456")] [("cid", Val.str "123456")]
      (by decide) (by decide)
      (fun r hr => by
        rw [List.mem_singleton] at hr
        subst hr
        exact ⟨Val.str "123456", by decide⟩)
      (fun r hr => by
        rw [List.mem_singleton] at hr
        subst hr
        exact ⟨Val.str "123456", by decide⟩)).mpr
    ⟨"123456", by decide, by decide⟩

/-- C2.  In the per-SOURCE-row step of the fuzzy matcher, given a non-empty
canonical name and a best candidate of score `score`, the merged row built
from the first TARGET row carrying the best-matching string is emitted when
`score` is at least the threshold, and the step yields no output row and no
error when `score` is below the threshold.  Instantiating the two parts at
`score = threshold` and `score = threshold - 1` gives the boundary cases of
the claim. -/
theorem fuzzyStep_threshold (adbl : List Row) (θ : ℚ) (row : Row) (m : String) (score : ℚ)
    (hname : pyStr (rowGet row "romanized_name") ≠ "")
    (hext : extractOne (pyStr (rowGet row "romanized_name"))
        (adbl.map (fun t => pyStr (rowGet t "romanized_name"))) = some (m, score)) :
    (θ ≤ score →
      ∃ t, adbl.find? (fun u => pyStr (rowGet u "romanized_name") == m) = some t ∧
        fuzzyStep adbl θ row
          = Except.ok (some (rowSet (row ++ rowDrop t "romanized_name") "match_score"
              (Val.num score)))) ∧
    (score < θ → fuzzyStep adbl θ row = Except.ok Option.none) := by
  constructor
  · intro hθ
    obtain ⟨t, hfind⟩ :=
      find?_isSome_of_mem_map (fun u => pyStr (rowGet u "romanized_name")) adbl m
        (extractOne_mem _ _ _ _ hext)
    refine ⟨t, hfind, ?_⟩
    unfold fuzzyStep
    rw [if_neg hname, hext]
    simp only
    rw [if_pos hθ, hfind]
  · intro hlt
    unfold fuzzyStep
    rw [if_neg hname, hext]
    simp only
    rw [if_neg (not_le.mpr hlt)]

/-- C2 witness: with canonical names abcd and abcf the computed score is
exactly 75; with threshold 75 the pair is emitted, and with threshold 76
(so that the score is threshold minus one) the step yields no output row
and no error. -/
theorem fuzzyStep_threshold_witness :
    (∃ t, [[("romanized_name", Val.str "abcf")]].find?
            (fun u => pyStr (rowGet u "romanized_name") == "abcf") = some t ∧
        fuzzyStep [[("romanized_name", Val.str "abcf")]] 75 [("romanized_name", Val.str "abcd")]
          = Except.ok (some (rowSet ([("romanized_name", Val.str "abcd")]
              ++ rowDrop t "romanized_name") "match_score" (Val.num 75)))) ∧
    fuzzyStep [[("romanized_name", Val.str "abcf")]] 76 [("romanized_name", Val.str "abcd")]
      = Except.ok Option.none :=
  ⟨(fuzzyStep_threshold [[("romanized_name", Val.str "abcf")]] 75
      [("romanized_name", Val.str "abcd")] "abcf" 75 (by decide) (by decide)).1 (by norm_num),
   (fuzzyStep_threshold [[("romanized_name", Val.str "abcf")]] 76
      [("romanized_name", Val.str "abcd")] "abcf" 75 (by decide) (by decide)).2 (by norm_num)⟩

/-- C10.  The fuzzy matcher is a pure function of its inputs, so equal
inputs give equal outputs; and whenever the per-SOURCE-row step emits a
merged row, that row is built from the TARGET row found by `find?` — the
first row in TARGET table order whose canonical name equals the
best-matching string returned by `extractOne` (the source looks the string
up again with `.iloc[0]`, so ties always resolve to the first such row). -/
theorem match_by_name_first_tie (adbl : List Row) (θ : ℚ) (row merged : Row) :
    (∀ (translit : String → Option String) (d1 d2 d1' d2' : DF) (nc ac : String) (θ' : ℚ),
        d1 = d1' → d2 = d2' →
        match_by_name translit d1 d2 nc ac θ' = match_by_name translit d1' d2' nc ac θ') ∧
    (fuzzyStep adbl θ row = Except.ok (some merged) →
      ∃ m score t,
        extractOne (pyStr (rowGet row "romanized_name"))
            (adbl.map (fun u => pyStr (rowGet u "romanized_name"))) = some (m, score) ∧
        adbl.find? (fun u => pyStr (rowGet u "romanized_name") == m) = some t ∧
        merged = rowSet (row ++ rowDrop t "romanized_name") "match_score" (Val.num score)) := by
  constructor
  · intro _ _ _ _ _ _ _ _ h1 h2
    rw [h1, h2]
  · intro h
    unfold fuzzyStep at h
    by_cases hname : pyStr (rowGet row "romanized_name") = ""
    · rw [if_pos hname] at h
      simp at h
    · rw [if_neg hname] at h
      cases hext : extractOne (pyStr (rowGet row "romanized_name"))
          (adbl.map (fun u => pyStr (rowGet u "romanized_name"))) with
      | none =>
        rw [hext] at h
        cases h
      | some p =>
        obtain ⟨m, score⟩ := p
        rw [hext] at h
        simp only at h
        by_cases hθ : θ ≤ score
        · rw [if_pos hθ] at h
          cases hfind : adbl.find? (fun u => pyStr (rowGet u "romanized_name") == m) with
          | none =>
            rw [hfind] at h
            cases h
          | some t =>
            rw [hfind] at h
            refine ⟨m, score, t, rfl, hfind, ?_⟩
            have := Except.ok.inj h
            exact (Option.some.inj this).symm
        · rw [if_neg hθ] at h
          simp at h

/-- C10 witness: two TARGET rows tie with identical canonical names; the
emitted merged row is built from the first of them (the row with id 1). -/
theorem match_by_name_first_tie_witness :
    ∃ m score t,
      extractOne (pyStr (rowGet [("nm", Val.str "x"), ("romanized_name", Val.str "ram kumar")]
            "romanized_name"))
          ([[("id", Val.str "1"), ("romanized_name", Val.str "ram kumar")],
            [("id", Val.str "2"), ("romanized_name", Val.str "ram kumar")]].map
            (fun u => pyStr (rowGet u "romanized_name"))) = some (m, score) ∧
      [[("id", Val.str "1"), ("romanized_name", Val.str "ram kumar")],
        [("id", Val.str "2"), ("romanized_name", Val.str "ram kumar")]].find?
          (fun u => pyStr (rowGet u "romanized_name") == m) = some t ∧
      [("nm", Val.str "x"), ("romanized_name", Val.str "ram kumar"),
        ("id", Val.str "1"), ("match_score", Val.num 100)]
        = rowSet ([("nm", Val.str "x"), ("romanized_name", Val.str "ram kumar")]
            ++ rowDrop t "romanized_name") "match_score" (Val.num score) :=
  (match_by_name_first_tie
      [[("id", Val.str "1"), ("romanized_name", Val.str "ram kumar")],
        [("id", Val.str "2"), ("romanized_name", Val.str "ram kumar")]]
      85
      [("nm", Val.str "x"), ("romanized_name", Val.str "ram kumar")]
      [("nm", Val.str "x"), ("romanized_name", Val.str "ram kumar"),
        ("id", Val.str "1"), ("match_score", Val.num 100)]).2 (by decide)

/-- C5, amended.  The Field Cleaner is idempotent exactly on the cells it
does not turn into the missing marker: when no cell of the column cleans to
the None marker, cleaning twice equals cleaning once (stripping is
idempotent and the replacement list does not trigger again); a cell cleaned
to the missing marker, by contrast, is rendered as the string None by the
second pass, as the counterexample shows. -/
theorem clean_column_idem_of_no_missing (df : DF) (c : String)
    (h : ∀ r ∈ df.rows, cleanVal (rowGet r c) ≠ Val.none) :
    clean_column (clean_column df c) c = clean_column df c := by
  unfold clean_column
  simp only [DF.mk.injEq, true_and]
  rw [List.map_map]
  apply List.map_congr_left
  intro r hr
  show rowSet (rowSet r c (cleanVal (rowGet r c))) c
      (cleanVal (rowGet (rowSet r c (cleanVal (rowGet r c))) c))
    = rowSet r c (cleanVal (rowGet r c))
  rw [rowGet_rowSet, cleanVal_idem _ (h r hr), rowSet_idem]

/-- C5 witness: a column whose single cell cleans to the non-missing string
123 is cleaned idempotently. -/
theorem clean_column_idem_of_no_missing_witness :
    clean_column (clean_column { cols := ["k"], rows := [[("k", Val.str " 123 ")]] } "k") "k"
      = clean_column { cols := ["k"], rows := [[("k", Val.str " 123 ")]] } "k" :=
  clean_column_idem_of_no_missing
    { cols := ["k"], rows := [[("k", Val.str " 123 ")]] } "k" (by decide)

/-- C6, amended.  The cleaner strips first and replaces second: every value
whose stripped form lies in the set nan, empty, single-blank — in
particular each member of the set itself — is mapped to the missing marker,
and every other string is replaced by its stripped form with the content
preserved.  (The original claim fails on values such as a padded nan, which
lie outside the set yet are mapped to missing, as the counterexample
shows.) -/
theorem cleanVal_cases (s : String) :
    ((pyStrip s = "nan" ∨ pyStrip s = "" ∨ pyStrip s = " ") →
        cleanVal (Val.str s) = Val.none) ∧
    (¬(pyStrip s = "nan" ∨ pyStrip s = "" ∨ pyStrip s = " ") →
        cleanVal (Val.str s) = Val.str (pyStrip s)) := by
  constructor
  · intro h
    simp [cleanVal, pyStr, h]
  · intro h
    simp only [cleanVal, pyStr]
    rw [if_neg h]

/-- C6 witness: a padded name is stripped with content preserved, and a
padded nan is mapped to the missing marker. -/
theorem cleanVal_cases_witness :
    cleanVal (Val.str " nepal ") = Val.str "nepal" ∧ cleanVal (Val.str " nan ") = Val.none :=
  ⟨by
    have h := (cleanVal_cases " nepal ").2 (by decide)
    rw [h]
    decide,
   (cleanVal_cases " nan ").1 (by decide)⟩

/-- C7, amended.  Name canonicalization is total: it is a function into
strings, a missing cell yields the empty string, and it never signals
failure — a transliteration failure falls back to the abbreviation-fixed
form of the raw text (equal to the raw text whenever no abbreviation
pattern occurs in it), while a transliteration success yields the
transliterated text.  (The original claim said the fallback is the raw
text itself; the counterexample shows the fallback differs from the raw
text when an abbreviation was rewritten first.) -/
theorem romanize_name_total (translit : String → Option String) (v : Val) :
    (isna v = true → romanize_name translit v = "") ∧
    (∀ s, v = Val.str s → translit (fix_devanagari_abbreviations s) = Option.none →
        romanize_name translit v = fix_devanagari_abbreviations s) ∧
    (∀ s r, v = Val.str s → translit (fix_devanagari_abbreviations s) = some r →
        romanize_name translit v = r) := by
  refine ⟨fun h => ?_, fun s hs ht => ?_, fun s r hs ht => ?_⟩
  · simp [romanize_name, h]
  · subst hs
    simp [romanize_name, isna, ht]
  · subst hs
    simp [romanize_name, isna, ht]

/-- C7 witness: a missing cell canonicalizes to the empty string, and with
a failing transliteration an abbreviation-free name falls back to itself. -/
theorem romanize_name_total_witness :
    romanize_name (fun _ => Option.none) Val.na = "" ∧
    romanize_name (fun _ => Option.none) (Val.str "sita") = "sita" :=
  ⟨(romanize_name_total (fun _ => Option.none) Val.na).1 (by decide),
   by
    have h := (romanize_name_total (fun _ => Option.none) (Val.str "sita")).2.1 "sita" rfl rfl
    rw [h]
    decide⟩

/-- C8, amended.  The Field Cleaner of src/nrb_block.py silently returns
the table unchanged when the designated column is absent; the configuration
error demanded by the claim is raised one level up, by
`merge_csvs_by_columns`, which checks both required columns before any
cleaning and raises ValueError naming the missing one. -/
theorem merge_missing_column_raises (df1 df2 : DF) (c : String) :
    (c ∉ df1.cols → clean_column_nrb df1 c = df1) ∧
    ("citizenship_number" ∉ df1.cols →
        merge_csvs_by_columns df1 df2
          = Except.error "ValueError: Column citizenship_number is missing in NRB Excel.") ∧
    ("citizenship_number" ∈ df1.cols → "CUS_LEG_ID" ∉ df2.cols →
        merge_csvs_by_columns df1 df2
          = Except.error "ValueError: Column CUS_LEG_ID is missing in ADBL CSV.") := by
  refine ⟨fun h => ?_, fun h => ?_, fun h1 h2 => ?_⟩
  · simp [clean_column_nrb, h]
  · simp [merge_csvs_by_columns, h]
  · simp [merge_csvs_by_columns, h1, h2]

/-- C8 witness: a table without the required citizenship_number column
makes the nrb_block cleaner a no-op and makes the merge raise ValueError. -/
theorem merge_missing_column_raises_witness :
    clean_column_nrb { cols := ["a"], rows := [] } "citizenship_number"
        = { cols := ["a"], rows := [] } ∧
    merge_csvs_by_columns { cols := ["a"], rows := [] } { cols := [], rows := [] }
        = Except.error "ValueError: Column citizenship_number is missing in NRB Excel." :=
  ⟨(merge_missing_column_raises { cols := ["a"], rows := [] } { cols := [], rows := [] }
      "citizenship_number").1 (by decide),
   (merge_missing_column_raises { cols := ["a"], rows := [] } { cols := [], rows := [] }
      "citizenship_number").2.1 (by decide)⟩

/-- C9, amended.  The matching core does not leave the caller's tables
untouched: the in-place column assignment of `clean_column` makes the
caller's table equal to the cleaned table after the call (first conjunct;
the counterexample shows it differs from the original).  The mutation is
confined: the column list and the row count are preserved, a cell of any
other column reads the same after the per-row rewrite, and a column that is
already clean in every cell is rewritten to itself. -/
theorem clean_column_mutation_confined (df : DF) (c : String) :
    clean_column_caller_view df c = clean_column df c ∧
    (clean_column df c).cols = df.cols ∧
    (clean_column df c).rows.length = df.rows.length ∧
    (∀ r : Row, ∀ c' : String, c' ≠ c →
        rowGet (rowSet r c (cleanVal (rowGet r c))) c' = rowGet r c') ∧
    ((∀ r ∈ df.rows, (r.any (fun p => p.1 == c)) = true ∧
        ∀ p ∈ r, p.1 = c → p.2 = cleanVal (rowGet r c)) →
      clean_column df c = df) := by
  refine ⟨rfl, rfl, by simp [clean_column], fun r c' h => rowGet_rowSet_ne r c c' _ h,
    fun h => ?_⟩
  unfold clean_column
  have hrows : df.rows.map (fun r => rowSet r c (cleanVal (rowGet r c))) = df.rows := by
    conv_rhs => rw [← List.map_id df.rows]
    apply List.map_congr_left
    intro r hr
    obtain ⟨hany, hcells⟩ := h r hr
    unfold rowSet
    rw [if_pos hany, id]
    conv_rhs => rw [← List.map_id r]
    apply List.map_congr_left
    intro p hp
    by_cases hpc : p.1 == c
    · have hv : p.2 = cleanVal (rowGet r c) := hcells p hp (by simpa using hpc)
      simp [setCell, hpc, ← hv]
    · simp [setCell, hpc]
  rw [hrows]

/-- C9 witness: a cell of a column other than the cleaned one reads the
same after the rewrite, and a table whose key column is already clean is
left unchanged by `clean_column`. -/
theorem clean_column_mutation_confined_witness :
    rowGet (rowSet [("k", Val.str " x "), ("o", Val.str "y")] "k"
        (cleanVal (rowGet [("k", Val.str " x "), ("o", Val.str "y")] "k"))) "o"
      = rowGet [("k", Val.str " x "), ("o", Val.str "y")] "o" ∧
    clean_column { cols := ["k"], rows := [[("k", Val.str "x")]] } "k"
      = { cols := ["k"], rows := [[("k", Val.str "x")]] } :=
  ⟨(clean_column_mutation_confined { cols := ["k"], rows := [] } "k").2.2.2.1
      [("k", Val.str " x "), ("o", Val.str "y")] "o" (by decide),
   (clean_column_mutation_confined { cols := ["k"], rows := [[("k", Val.str "x")]] } "k").2.2.2.2
      (by decide)⟩

end NrbBlock
